import Mathlib

/-!
# Verification of the bulk-import reconciliation routine

Shallow embedding of the spreadsheet bulk-import logic of the racing-league
management dashboard (`src/components/BulkImportModal.tsx`, its duplicated
variant, and the schema read-back in `src/components/Dashboard.tsx`),
together with proofs of the specified properties.

Spreadsheet cell values are modelled by `CellValue` (the integer/string
fragment of the dynamic values the spreadsheet decoder produces); JavaScript
coercions (`String(x)`, `Number(x) || d`, truthiness) are modelled
explicitly.  JSON serialization is modelled at the level of the document
tree (`Payload`): `JSON.stringify` followed by `JSON.parse` is the identity
on that tree, which is the library guarantee the code relies on.
-/

set_option maxRecDepth 4096

namespace Moza

/-- A spreadsheet cell value: the string/integer fragment of the dynamic
values produced by the decoder (`sheet_to_json`). -/
inductive CellValue where
| str (s : String)
| num (n : Int)
deriving DecidableEq, Repr

/-- JavaScript `String(v)` on a cell value. -/
def jsToString : CellValue → String
| .str s => s
| .num n => toString n

/-- JavaScript truthiness of a cell value: `""` and `0` are falsy. -/
def truthy : CellValue → Bool
| .str s => s ≠ ""
| .num n => n ≠ 0

/-- Whitespace characters stripped by `String.prototype.trim` (common
ASCII fragment). -/
def isWsChar (c : Char) : Bool :=
c = ' ' || c = '\t' || c = '\n' || c = '\r'

/-- Drop leading whitespace from a character list. -/
def dropLeadingWs : List Char → List Char
| [] => []
| c :: cs => if isWsChar c then dropLeadingWs cs else c :: cs

/-- JavaScript `s.trim()`: strip leading and trailing whitespace. -/
def jsTrim (s : String) : String :=
⟨(dropLeadingWs (dropLeadingWs s.data).reverse).reverse⟩

/-- The numeric value of a decimal digit character (code points 48-57),
`none` for any other character. -/
def decDigit (c : Char) : Option Nat :=
if 48 ≤ c.toNat ∧ c.toNat ≤ 57 then some (c.toNat - 48) else none

/-- Accumulate a run of decimal digits; `none` on any non-digit. -/
def parseDigits : List Char → Nat → Option Nat
| [], acc => some acc
| c :: cs, acc =>
  match decDigit c with
  | some d => parseDigits cs (acc * 10 + d)
  | none => none

/-- Parse a nonempty run of decimal digits. -/
def parseNatChars : List Char → Option Nat
| [] => none
| l => parseDigits l 0

/-- JavaScript `Number(s)` on an already-trimmed character list, restricted
to the decimal-integer fragment: the empty string coerces to `0`, an
optionally signed digit run to its value, anything else to `NaN`
(modelled as `none`). -/
def jsNumChars : List Char → Option Int
| [] => some 0
| '-' :: cs => (parseNatChars cs).map (fun n => -(n : Int))
| '+' :: cs => (parseNatChars cs).map (fun n => (n : Int))
| cs => (parseNatChars cs).map (fun n => (n : Int))

/-- JavaScript `Number(v)` on a cell value (integer fragment; `none`
models `NaN`). -/
def jsNumber : CellValue → Option Int
| .num n => some n
| .str s => jsNumChars (jsTrim s).data

/-- JavaScript `x || d` for a numeric `x` (`none` = `NaN`): the default is
taken when `x` is `NaN` or `0` (both falsy). -/
def jsOrDefault : Option Int → Int → Int
| none, d => d
| some x, d => if x = 0 then d else x

/-- A decoded data row: the ordered key to cell-value mapping produced by
the decoder for one spreadsheet row. -/
def Row := List (String × CellValue)

instance : DecidableEq Row := by
unfold Row
infer_instance

/-- The three semantic roles of `ESSENTIAL_MAP` in the source
(`rank`, `driver_id`, `points` fields of `DBRanking`). -/
inductive Role where
| rank
| driverId
| points
deriving DecidableEq, Repr

/-- The fixed bilingual synonym table of `BulkImportModal.tsx`
(`ESSENTIAL_MAP`): header spelling to semantic role. -/
def ESSENTIAL_MAP (s : String) : Option Role :=
if s = "排名" ∨ s = "Rank" ∨ s = "RANK" then some .rank
else if s = "车手" ∨ s = "车手姓名" ∨ s = "车手ID" ∨ s = "姓名" ∨ s = "Driver" ∨ s = "Name" then some .driverId
else if s = "积分" ∨ s = "Points" ∨ s = "POINTS" then some .points
else none

/-- The essential fields derived from one data row (locals `rank`,
`driver_id`, `points` of the row mapper in `handleImport`). -/
structure Essentials where
rank : Int
driver_id : String
points : Int
deriving DecidableEq, Repr

/-- One step of the `Object.keys(row).forEach` scan in `handleImport`:
trim the key, look it up in `ESSENTIAL_MAP`, and overwrite the matching
essential field (`rank = Number(v) || 999`, `driver_id = String(v)`,
`points = Number(v) || 0`). -/
def essentialsStep (e : Essentials) (kv : String × CellValue) : Essentials :=
match ESSENTIAL_MAP (jsTrim kv.1) with
| some .rank => { e with rank := jsOrDefault (jsNumber kv.2) 999 }
| some .driverId => { e with driver_id := jsToString kv.2 }
| some .points => { e with points := jsOrDefault (jsNumber kv.2) 0 }
| none => e

/-- The essential-field scan of `handleImport` (lines 121-133): start from
`rank = 999`, `driver_id = "Unknown"`, `points = 0` and fold the row's
key-value pairs in their natural order. -/
def deriveEssentials (row : Row) : Essentials :=
row.foldl essentialsStep ⟨999, "Unknown", 0⟩

/-- The JSON document stored in the `display_races` column, modelled at
the level of the document tree (`JSON.stringify` on import and
`JSON.parse` on read-back are mutually inverse on this tree):
`rowData row` is the serialized full original row object, `meta cols` is
the serialized object with a single `columns` field holding the header
array. -/
inductive Payload where
| rowData (row : List (String × CellValue))
| meta (columns : List CellValue)
deriving DecidableEq, Repr

/-- A record of the `rankings` table as built by `handleImport`
(field-for-field the object literals of lines 107-118 and 140-153; the
metadata literal omits `tier`, which the store defaults to null). -/
structure DBRecord where
round_id : String
driver_id : String
rank : Int
points : Int
tier : Option String
safety_score : Int
podiums : Int
finished_races : Int
total_races : Int
display_races : Payload
created_at : String
deriving DecidableEq, Repr

/-- The metadata record of `handleImport` (lines 107-118): driver identity
`__METADATA__`, zeroed numeric fields, headers serialized into
`display_races`. -/
def metadataRecord (roundId now : String) (headers : List CellValue) : DBRecord :=
{ round_id := roundId
, driver_id := "__METADATA__"
, rank := 0
, points := 0
, tier := none
, safety_score := 0
, podiums := 0
, finished_races := 0
, total_races := 0
, display_races := .meta headers
, created_at := now }

/-- The data record built from one parsed row (lines 121-153): essential
fields from the scan, `Unknown` replaced by `Unknown_<suffix>`, the whole
original row serialized into `display_races`. -/
def mkDataRecord (roundId now sfx : String) (row : Row) : DBRecord :=
let e := deriveEssentials row
let driver := if e.driver_id = "Unknown" then "Unknown_" ++ sfx else e.driver_id
{ round_id := roundId
, driver_id := driver
, rank := e.rank
, points := e.points
, tier := none
, safety_score := 0
, podiums := 0
, finished_races := 0
, total_races := 0
, display_races := .rowData row
, created_at := now }

/-- `parsedRows.map(...)` of `handleImport`, with the per-row random
suffix for unresolved identities supplied by `sfx` (indexed by row
position, modelling one `Math.random()` draw per row). -/
def buildDataRecords (roundId now : String) (sfx : Nat → String) : List Row → Nat → List DBRecord
| [], _ => []
| row :: rest, i => mkDataRecord roundId now (sfx i) row :: buildDataRecords roundId now sfx rest (i + 1)

/-- The header filter of `processFile` (line 79):
`fileHeaders.filter(h => h && h.toString().trim() !== "")`. -/
def cleanHeaders (fileHeaders : List CellValue) : List CellValue :=
fileHeaders.filter (fun h => truthy h && jsTrim (jsToString h) ≠ "")

/-- The candidate renamed identity of the dedup loop:
`` `${record.driver_id}_${counter}` ``. -/
def freshName (base : String) (n : Nat) : String :=
base ++ "_" ++ toString n

/-- The `while (uniqueRecords.has(newId))` loop of `handleImport`
(lines 171-176): starting at `counter = n`, advance while the candidate
name is taken.  Structural fuel makes the search executable; the callers
always pass enough fuel (see `findFreshAux_spec` and
`exists_fresh_counter`). -/
def findFreshAux (keys : List String) (base : String) : Nat → Nat → Nat
| n, 0 => n
| n, fuel + 1 => if keys.contains (freshName base n) then findFreshAux keys base (n + 1) fuel else n

/-- One iteration of the dedup `forEach` (lines 167-180) on the
insertion-ordered key-record map, modelled as an association list. -/
def dedupStep (acc : List (String × DBRecord)) (record : DBRecord) : List (String × DBRecord) :=
let keys := acc.map Prod.fst
if keys.contains record.driver_id then
  let counter := findFreshAux keys record.driver_id 1 (keys.length + 1)
  let newId := freshName record.driver_id counter
  acc ++ [(newId, { record with driver_id := newId })]
else
  acc ++ [(record.driver_id, record)]

/-- The deduplication pass of `handleImport` (lines 165-182):
`dataRecords.forEach` into the `uniqueRecords` map, then
`Array.from(uniqueRecords.values())` in insertion order. -/
def dedupRecords (dataRecords : List DBRecord) : List DBRecord :=
(dataRecords.foldl dedupStep []).map Prod.snd

/-- The unique-key constraint of the `rankings` table, `(round_id,
driver_id)` (the store contract of spec section 6, asserted in the source
comments): the key under which a record is stored. -/
def recordKey (r : DBRecord) : String × String :=
(r.round_id, r.driver_id)

/-- Pairwise distinctness of a key list, as the store checks it on bulk
insert. -/
def distinctKeys : List (String × String) → Bool
| [] => true
| k :: ks => (!ks.contains k) && distinctKeys ks

/-- Whether a bulk insert of `batch` into `store` satisfies the
`(round_id, driver_id)` unique-key constraint. -/
def insertOk (batch store : List DBRecord) : Bool :=
distinctKeys (batch.map recordKey) && batch.all (fun b => store.all (fun s => recordKey s ≠ recordKey b))

/-- A storage operation issued against the `rankings` table. -/
inductive StoreOp where
| deleteRound (roundId : String)
| insertRecords (batch : List DBRecord)
deriving DecidableEq, Repr

/-- Outcome of one invocation of the import routine. -/
inductive ImportOutcome where
| emptyFile
| noDataRows
| validationError
| persistenceError
| success
deriving DecidableEq, Repr

/-- Result of a run: outcome, resulting store contents, and the storage
operations that were issued, in order. -/
structure RunResult where
outcome : ImportOutcome
store : List DBRecord
ops : List StoreOp
deriving DecidableEq, Repr

/-- `handleImport` of `BulkImportModal.tsx` (lines 98-205) as a state
transformer on the ranking store.  `roundId` is the optional prop;
`headers` and `parsedRows` are the component state set by `processFile`;
`sfx` supplies the per-row random suffix; `now` the clock reading;
`deleteFails` and `insertFails` model infrastructure failures of the two
storage calls (the insert additionally fails when the unique-key
constraint is violated).  The store is the list of `rankings` rows; the
delete is `eq('round_id', roundId)`, the insert is the single batch
`[metadataRecord, ...finalDataRecords]`. -/
def handleImport (roundId : Option String) (headers : List CellValue) (parsedRows : List Row)
    (sfx : Nat → String) (now : String) (deleteFails insertFails : Bool)
    (store : List DBRecord) : RunResult :=
match roundId with
| none => ⟨.validationError, store, []⟩
| some rid =>
  let md := metadataRecord rid now headers
  let dataRecords := buildDataRecords rid now sfx parsedRows 0
  if deleteFails then ⟨.persistenceError, store, [.deleteRound rid]⟩
  else
    let store1 := store.filter (fun r => r.round_id ≠ rid)
    let finalDataRecords := dedupRecords dataRecords
    let allRecords := md :: finalDataRecords
    if insertFails || !insertOk allRecords store1 then
      ⟨.persistenceError, store1, [.deleteRound rid, .insertRecords allRecords]⟩
    else
      ⟨.success, store1 ++ allRecords, [.deleteRound rid, .insertRecords allRecords]⟩

/-- `processFile` of `BulkImportModal.tsx` (lines 62-96), abstracted over
the decoder output: `jsonData` is `sheet_to_json(ws, header: 1)` (rows as
cell arrays, first entry the header row) and `rows` is `sheet_to_json(ws)`
(data rows as key-value objects).  Returns the component state
(`headers`, `parsedRows`) or the rejection. -/
def processFile (jsonData : List (List CellValue)) (rows : List Row) :
    Except ImportOutcome (List CellValue × List Row) :=
match jsonData with
| [] => .error .emptyFile
| fileHeaders :: _ =>
  let ch := cleanHeaders fileHeaders
  match rows with
  | [] => .error .noDataRows
  | _ => .ok (ch, rows)

/-- The full import pipeline: `processFile` stores `headers`/`parsedRows`
and moves to the preview step, from which `handleImport` runs; a
`processFile` rejection never reaches `handleImport` and issues no
storage operation. -/
def fullImport (roundId : Option String) (jsonData : List (List CellValue)) (rows : List Row)
    (sfx : Nat → String) (now : String) (deleteFails insertFails : Bool)
    (store : List DBRecord) : RunResult :=
match processFile jsonData rows with
| .error e => ⟨e, store, []⟩
| .ok (headers, parsedRows) => handleImport roundId headers parsedRows sfx now deleteFails insertFails store

/-- JavaScript property lookup `row[col]` on a decoded row object. -/
def lookupRow (col : String) : Row → Option CellValue
| [] => none
| (k, v) :: rest => if k = col then some v else lookupRow col rest

/-- The metadata read-back of `Dashboard.tsx` (lines 180-199): find the
`__METADATA__` row among the round's records, parse `display_races`, and
return the `columns` array if present. -/
def metadataColumns (roundData : List DBRecord) : Option (List CellValue) :=
match roundData.find? (fun r => r.driver_id = "__METADATA__") with
| some r =>
  match r.display_races with
  | .meta cols => some cols
  | .rowData _ => none
| none => none

/-- Lookup of a column in a parsed `display_races` document. -/
def renderPayload (col : String) : Payload → Option CellValue
| .rowData row => lookupRow col row
| .meta _ => none

/-- The dynamic-column cell renderer of `Dashboard.tsx` (lines 190-194):
`row.rawData[col]` where `rawData` is the parsed `display_races` of the
record. -/
def renderCell (col : String) (r : DBRecord) : Option CellValue :=
renderPayload col r.display_races

/-! ### Injectivity of the decimal rendering of counters -/

/-- The numeric value of a digit character (inverse of `Nat.digitChar` on
decimal digits). -/
def digitVal (c : Char) : Nat :=
c.toNat - 48

/-- Positional value and weight of a digit string: `charListVal l =
(value of l read in base 10, 10 ^ l.length)`. -/
def charListVal : List Char → Nat × Nat
| [] => (0, 1)
| c :: cs =>
  let vp := charListVal cs
  (digitVal c * vp.2 + vp.1, 10 * vp.2)

theorem digitVal_digitChar : ∀ d : Nat, d < 10 → digitVal (Nat.digitChar d) = d := by
decide

theorem charListVal_cons_fst (c : Char) (cs : List Char) :
    (charListVal (c :: cs)).1 = digitVal c * (charListVal cs).2 + (charListVal cs).1 := rfl

theorem charListVal_cons_snd (c : Char) (cs : List Char) :
    (charListVal (c :: cs)).2 = 10 * (charListVal cs).2 := rfl

theorem charListVal_toDigitsCore :
    ∀ (fuel n : Nat) (ds : List Char), n ≤ fuel →
      (charListVal (Nat.toDigitsCore 10 fuel n ds)).1
        = n * (charListVal ds).2 + (charListVal ds).1 := by
intro fuel
induction fuel with
| zero =>
  intro n ds hn
  interval_cases n
  simp [Nat.toDigitsCore, charListVal]
| succ fuel ih =>
  intro n ds hn
  by_cases h0 : n / 10 = 0
  · have hn10 : n < 10 := by omega
    have hred : Nat.toDigitsCore 10 (fuel + 1) n ds = Nat.digitChar (n % 10) :: ds := by
      simp [Nat.toDigitsCore, h0]
    rw [hred, charListVal_cons_fst]
    have hmod : n % 10 = n := Nat.mod_eq_of_lt hn10
    rw [hmod, digitVal_digitChar n hn10]
  · have hstep : Nat.toDigitsCore 10 (fuel + 1) n ds
        = Nat.toDigitsCore 10 fuel (n / 10) (Nat.digitChar (n % 10) :: ds) := by
      simp [Nat.toDigitsCore, h0]
    have hle : n / 10 ≤ fuel := by
      have h1 : n / 10 < n := Nat.div_lt_self (by omega) (by omega)
      omega
    rw [hstep, ih (n / 10) (Nat.digitChar (n % 10) :: ds) hle,
      charListVal_cons_fst, charListVal_cons_snd]
    have hmodlt : n % 10 < 10 := Nat.mod_lt n (by omega)
    rw [digitVal_digitChar _ hmodlt]
    have hdm : n / 10 * 10 + n % 10 = n := by omega
    have hring : n / 10 * (10 * (charListVal ds).2)
        + (n % 10 * (charListVal ds).2 + (charListVal ds).1)
        = (n / 10 * 10 + n % 10) * (charListVal ds).2 + (charListVal ds).1 := by ring
    rw [hring, hdm]

theorem natRepr_injective : Function.Injective Nat.repr := by
intro m n h
have hm : (charListVal (Nat.toDigits 10 m)).1 = m := by
  have := charListVal_toDigitsCore (m + 1) m [] (by omega)
  simpa [Nat.toDigits, charListVal] using this
have hn : (charListVal (Nat.toDigits 10 n)).1 = n := by
  have := charListVal_toDigitsCore (n + 1) n [] (by omega)
  simpa [Nat.toDigits, charListVal] using this
have hd : Nat.toDigits 10 m = Nat.toDigits 10 n := by
  have : (Nat.repr m).data = (Nat.repr n).data := by rw [h]
  simpa [Nat.repr, List.asString] using this
rw [← hm, ← hn, hd]

theorem freshName_injective (base : String) : Function.Injective (freshName base) := by
intro m n h
apply natRepr_injective
have hd : (freshName base m).data = (freshName base n).data := by rw [h]
simp only [freshName, String.data_append] at hd
have := List.append_cancel_left hd
exact congrArg String.mk this

/-- Pigeonhole for the dedup rename loop: among the candidate counters
`1, …, keys.length + 1` some renamed identity is not a key yet. -/
theorem exists_fresh_counter (keys : List String) (base : String) :
    ∃ m, 1 ≤ m ∧ m < keys.length + 2 ∧ freshName base m ∉ keys := by
by_contra hcon
push_neg at hcon
have hsub : ((List.range (keys.length + 1)).map (fun i => freshName base (i + 1))) ⊆ keys := by
  intro x hx
  rcases List.mem_map.1 hx with ⟨i, hi, rfl⟩
  exact hcon (i + 1) (by omega) (by have := List.mem_range.1 hi; omega)
have hnd : ((List.range (keys.length + 1)).map (fun i => freshName base (i + 1))).Nodup := by
  refine (List.nodup_range _).map ?_
  intro a b hab
  have := freshName_injective base hab
  omega
have hlen := (hnd.subperm hsub).length_le
simp at hlen

/-- Correctness of the fuelled `while` loop: if some counter in the fuel
window is fresh, the loop returns the least fresh counter at or beyond the
start. -/
theorem findFreshAux_spec (keys : List String) (base : String) :
    ∀ (fuel n : Nat), (∃ m, n ≤ m ∧ m < n + fuel ∧ freshName base m ∉ keys) →
      freshName base (findFreshAux keys base n fuel) ∉ keys ∧
      n ≤ findFreshAux keys base n fuel ∧
      ∀ k, n ≤ k → k < findFreshAux keys base n fuel → freshName base k ∈ keys := by
intro fuel
induction fuel with
| zero =>
  intro n ⟨m, h1, h2, _⟩
  omega
| succ fuel ih =>
  intro n hex
  by_cases hc : keys.contains (freshName base n)
  · have hmemn : freshName base n ∈ keys := by
      simpa using hc
    have hrec : findFreshAux keys base n (fuel + 1) = findFreshAux keys base (n + 1) fuel := by
      simp only [findFreshAux]
      rw [if_pos hc]
    rcases hex with ⟨m, hm1, hm2, hm3⟩
    have hmn : m ≠ n := by
      intro he
      exact hm3 (he ▸ hmemn)
    have ⟨ha, hb, hmin⟩ := ih (n + 1) ⟨m, by omega, by omega, hm3⟩
    rw [hrec]
    refine ⟨ha, by omega, ?_⟩
    intro k hk1 hk2
    rcases Nat.eq_or_lt_of_le hk1 with he | hlt
    · exact he ▸ hmemn
    · exact hmin k (by omega) hk2
  · have hrec : findFreshAux keys base n (fuel + 1) = n := by
      simp only [findFreshAux]
      rw [if_neg hc]
    rw [hrec]
    refine ⟨?_, le_refl n, ?_⟩
    · simpa using hc
    · intro k hk1 hk2
      omega

/-! ### Structure of the deduplication pass -/

/-- Erase the storage identity of a record (used to state that renaming
touches nothing but `driver_id`). -/
def stripId (r : DBRecord) : DBRecord :=
{ r with driver_id := "" }

theorem dedupStep_first (acc : List (String × DBRecord)) (r : DBRecord)
    (h : r.driver_id ∉ acc.map Prod.fst) :
    dedupStep acc r = acc ++ [(r.driver_id, r)] := by
have hc : (acc.map Prod.fst).contains r.driver_id = false := by
  simpa using h
simp only [dedupStep]
rw [if_neg (by intro hx; rw [hc] at hx; cases hx)]

theorem dedupStep_collision (acc : List (String × DBRecord)) (r : DBRecord)
    (h : r.driver_id ∈ acc.map Prod.fst) :
    ∃ n, 0 < n ∧
      freshName r.driver_id n ∉ acc.map Prod.fst ∧
      (∀ k, 0 < k → k < n → freshName r.driver_id k ∈ acc.map Prod.fst) ∧
      dedupStep acc r
        = acc ++ [(freshName r.driver_id n, { r with driver_id := freshName r.driver_id n })] := by
have hc : (acc.map Prod.fst).contains r.driver_id = true := by
  simpa using h
obtain ⟨m, hm1, hm2, hm3⟩ := exists_fresh_counter (acc.map Prod.fst) r.driver_id
have hspec := findFreshAux_spec (acc.map Prod.fst) r.driver_id ((acc.map Prod.fst).length + 1) 1
  ⟨m, by omega, by omega, hm3⟩
refine ⟨findFreshAux (acc.map Prod.fst) r.driver_id 1 ((acc.map Prod.fst).length + 1),
  by omega, hspec.1, ?_, ?_⟩
· intro k hk1 hk2
  exact hspec.2.2 k (by omega) hk2
· simp only [dedupStep]
  rw [if_pos hc]

/-- Every dedup step appends exactly one entry, keyed by a fresh
identity, whose record differs from the input record only in
`driver_id`. -/
theorem dedupStep_shape (acc : List (String × DBRecord)) (r : DBRecord) :
    ∃ k, k ∉ acc.map Prod.fst ∧
      dedupStep acc r = acc ++ [(k, { r with driver_id := k })] := by
by_cases h : r.driver_id ∈ acc.map Prod.fst
· obtain ⟨n, _, hfresh, _, heq⟩ := dedupStep_collision acc r h
  exact ⟨freshName r.driver_id n, hfresh, heq⟩
· refine ⟨r.driver_id, h, ?_⟩
  rw [dedupStep_first acc r h]

theorem dedupFold_length : ∀ (l : List DBRecord) (acc : List (String × DBRecord)),
    (l.foldl dedupStep acc).length = acc.length + l.length := by
intro l
induction l with
| nil => intro acc; simp
| cons r rest ih =>
  intro acc
  obtain ⟨k, _, heq⟩ := dedupStep_shape acc r
  simp only [List.foldl_cons, heq, ih, List.length_append, List.length_cons]
  simp
  omega

theorem dedupFold_entry_id : ∀ (l : List DBRecord) (acc : List (String × DBRecord)),
    (∀ p ∈ acc, (p.2).driver_id = p.1) →
      ∀ p ∈ l.foldl dedupStep acc, (p.2).driver_id = p.1 := by
intro l
induction l with
| nil => intro acc h; simpa using h
| cons r rest ih =>
  intro acc h
  apply ih (dedupStep acc r)
  obtain ⟨k, _, heq⟩ := dedupStep_shape acc r
  rw [heq]
  intro p hp
  rcases List.mem_append.1 hp with hp | hp
  · exact h p hp
  · simp at hp
    rw [hp]

theorem dedupFold_keys_nodup : ∀ (l : List DBRecord) (acc : List (String × DBRecord)),
    (acc.map Prod.fst).Nodup → ((l.foldl dedupStep acc).map Prod.fst).Nodup := by
intro l
induction l with
| nil => intro acc h; simpa using h
| cons r rest ih =>
  intro acc h
  apply ih (dedupStep acc r)
  obtain ⟨k, hk, heq⟩ := dedupStep_shape acc r
  rw [heq]
  simp [List.nodup_append, h, hk]

theorem dedupFold_strip : ∀ (l : List DBRecord) (acc : List (String × DBRecord)),
    (l.foldl dedupStep acc).map (fun p => stripId p.2)
      = acc.map (fun p => stripId p.2) ++ l.map stripId := by
intro l
induction l with
| nil => intro acc; simp
| cons r rest ih =>
  intro acc
  obtain ⟨k, _, heq⟩ := dedupStep_shape acc r
  have hstrip : stripId { r with driver_id := k } = stripId r := rfl
  simp only [List.foldl_cons, heq, ih, List.map_append]
  simp [hstrip]

/-- Deduplication never drops a row: the output has one record per input
record. -/
theorem dedupRecords_length (l : List DBRecord) : (dedupRecords l).length = l.length := by
simp [dedupRecords, dedupFold_length l []]

/-- Deduplication changes only the storage identity of records. -/
theorem dedupRecords_strip (l : List DBRecord) :
    (dedupRecords l).map stripId = l.map stripId := by
have h := dedupFold_strip l []
simp only [dedupRecords, List.map_map]
simpa using h

/-- The final identities after deduplication are pairwise distinct. -/
theorem dedupRecords_ids_nodup (l : List DBRecord) :
    ((dedupRecords l).map (fun r => r.driver_id)).Nodup := by
have hid := dedupFold_entry_id l [] (by simp)
have hnd := dedupFold_keys_nodup l [] (by simp)
have heq : (dedupRecords l).map (fun r => r.driver_id)
    = (l.foldl dedupStep []).map Prod.fst := by
  simp only [dedupRecords, List.map_map]
  apply List.map_congr_left
  intro p hp
  exact hid p hp
rw [heq]
exact hnd

/-- Records that agree after erasing the identity agree on every other
field; in particular dedup preserves any identity-independent
projection. -/
theorem dedupRecords_map_eq {α : Type} (f : DBRecord → α) (hf : ∀ r, f (stripId r) = f r)
    (l : List DBRecord) : (dedupRecords l).map f = l.map f := by
have h1 : (dedupRecords l).map f = ((dedupRecords l).map stripId).map f := by
  rw [List.map_map]
  apply List.map_congr_left
  intro r _
  exact (hf r).symm
have h2 : l.map f = (l.map stripId).map f := by
  rw [List.map_map]
  apply List.map_congr_left
  intro r _
  exact (hf r).symm
rw [h1, h2, dedupRecords_strip]

/-! ### Characterization of the essential-field scan -/

/-- The cell supplied for a role by a row: the value under the last
header (in the row's natural order) whose trimmed spelling maps to that
role, if any. -/
def lastRole (role : Role) (row : Row) : Option CellValue :=
row.foldl (fun a kv => if ESSENTIAL_MAP (jsTrim kv.1) = some role then some kv.2 else a) none

theorem lastRole_acc (role : Role) :
    ∀ (row : Row) (acc : Option CellValue),
      row.foldl (fun a kv => if ESSENTIAL_MAP (jsTrim kv.1) = some role then some kv.2 else a) acc
        = match lastRole role row with
          | some v => some v
          | none => acc := by
intro row
induction row with
| nil => intro acc; simp [lastRole]
| cons kv rest ih =>
  intro acc
  have hr : lastRole role (kv :: rest)
      = match lastRole role rest with
        | some v => some v
        | none => if ESSENTIAL_MAP (jsTrim kv.1) = some role then some kv.2 else none := by
    simp only [lastRole, List.foldl_cons]
    rw [show lastRole role rest
        = rest.foldl (fun a kv => if ESSENTIAL_MAP (jsTrim kv.1) = some role then some kv.2 else a) none
      from rfl] at ih
    exact ih (if ESSENTIAL_MAP (jsTrim kv.1) = some role then some kv.2 else none)
  simp only [List.foldl_cons]
  rw [ih, hr]
  cases lastRole role rest with
  | some v => simp
  | none =>
    by_cases hm : ESSENTIAL_MAP (jsTrim kv.1) = some role
    · simp [hm]
    · simp [hm]

theorem lastRole_cons (role : Role) (kv : String × CellValue) (rest : Row) :
    lastRole role (kv :: rest)
      = match lastRole role rest with
        | some v => some v
        | none => if ESSENTIAL_MAP (jsTrim kv.1) = some role then some kv.2 else none := by
simp only [lastRole, List.foldl_cons]
exact lastRole_acc role rest (if ESSENTIAL_MAP (jsTrim kv.1) = some role then some kv.2 else none)

/-- The essential-field scan computes, for each role, the value of the
last matching header in the row (defaults when no header matches; the
falsy-coercing defaults for `rank` and `points`). -/
theorem deriveEssentials_char (row : Row) :
    deriveEssentials row
      = { rank := match lastRole .rank row with
            | some v => jsOrDefault (jsNumber v) 999
            | none => 999
        , driver_id := match lastRole .driverId row with
            | some v => jsToString v
            | none => "Unknown"
        , points := match lastRole .points row with
            | some v => jsOrDefault (jsNumber v) 0
            | none => 0 } := by
suffices h : ∀ (row : Row) (e : Essentials),
    row.foldl essentialsStep e
      = { rank := match lastRole .rank row with
            | some v => jsOrDefault (jsNumber v) 999
            | none => e.rank
        , driver_id := match lastRole .driverId row with
            | some v => jsToString v
            | none => e.driver_id
        , points := match lastRole .points row with
            | some v => jsOrDefault (jsNumber v) 0
            | none => e.points } by
  rw [deriveEssentials, h row ⟨999, "Unknown", 0⟩]
intro row
induction row with
| nil => intro e; simp [lastRole]
| cons kv rest ih =>
  intro e
  simp only [List.foldl_cons]
  rw [ih (essentialsStep e kv), lastRole_cons, lastRole_cons, lastRole_cons]
  cases hq : ESSENTIAL_MAP (jsTrim kv.1) with
  | none =>
    have he : essentialsStep e kv = e := by
      simp [essentialsStep, hq]
    rw [he]
    cases lastRole Role.rank rest <;> cases lastRole Role.driverId rest <;>
      cases lastRole Role.points rest <;> simp [hq]
  | some role =>
    cases role with
    | rank =>
      have he : essentialsStep e kv = { e with rank := jsOrDefault (jsNumber kv.2) 999 } := by
        simp [essentialsStep, hq]
      rw [he]
      cases lastRole Role.rank rest <;> cases lastRole Role.driverId rest <;>
        cases lastRole Role.points rest <;> simp [hq]
    | driverId =>
      have he : essentialsStep e kv = { e with driver_id := jsToString kv.2 } := by
        simp [essentialsStep, hq]
      rw [he]
      cases lastRole Role.rank rest <;> cases lastRole Role.driverId rest <;>
        cases lastRole Role.points rest <;> simp [hq]
    | points =>
      have he : essentialsStep e kv = { e with points := jsOrDefault (jsNumber kv.2) 0 } := by
        simp [essentialsStep, hq]
      rw [he]
      cases lastRole Role.rank rest <;> cases lastRole Role.driverId rest <;>
        cases lastRole Role.points rest <;> simp [hq]

/-! ### The persistence batch -/

theorem buildDataRecords_round_id (rid now : String) (sfx : Nat → String) :
    ∀ (rows : List Row) (i : Nat) (r : DBRecord),
      r ∈ buildDataRecords rid now sfx rows i → r.round_id = rid := by
intro rows
induction rows with
| nil => intro i r hr; cases hr
| cons row rest ih =>
  intro i r hr
  rcases List.mem_cons.1 hr with hr | hr
  · rw [hr]
    rfl
  · exact ih (i + 1) r hr

theorem buildDataRecords_display (rid now : String) (sfx : Nat → String) :
    ∀ (rows : List Row) (i : Nat),
      (buildDataRecords rid now sfx rows i).map (fun r => r.display_races)
        = rows.map Payload.rowData := by
intro rows
induction rows with
| nil => intro i; rfl
| cons row rest ih =>
  intro i
  simp only [buildDataRecords, List.map_cons, ih (i + 1)]
  rfl

theorem buildDataRecords_length (rid now : String) (sfx : Nat → String) (rows : List Row)
    (i : Nat) : (buildDataRecords rid now sfx rows i).length = rows.length := by
have h := congrArg List.length (buildDataRecords_display rid now sfx rows i)
simpa using h

theorem dedupRecords_round_id (rid : String) (l : List DBRecord)
    (hl : ∀ r ∈ l, r.round_id = rid) : ∀ r ∈ dedupRecords l, r.round_id = rid := by
have hmap : (dedupRecords l).map (fun r => r.round_id) = l.map (fun r => r.round_id) :=
  dedupRecords_map_eq (fun r => r.round_id) (fun _ => rfl) l
intro r hr
have : r.round_id ∈ (dedupRecords l).map (fun r => r.round_id) := List.mem_map_of_mem _ hr
rw [hmap] at this
rcases List.mem_map.1 this with ⟨s, hs, hsr⟩
rw [← hsr, hl s hs]

theorem dedupRecords_display (l : List DBRecord) :
    (dedupRecords l).map (fun r => r.display_races) = l.map (fun r => r.display_races) :=
dedupRecords_map_eq (fun r => r.display_races) (fun _ => rfl) l

/-- Inversion of a successful `handleImport` run: both storage calls
succeeded, and the final store and operation trace are the
delete-then-insert of the batch. -/
theorem handleImport_success_inv (rid : String) (headers : List CellValue) (parsedRows : List Row)
    (sfx : Nat → String) (now : String) (deleteFails insertFails : Bool) (store : List DBRecord)
    (h : (handleImport (some rid) headers parsedRows sfx now deleteFails insertFails store).outcome
      = .success) :
    deleteFails = false ∧ insertFails = false ∧
    insertOk
      (metadataRecord rid now headers :: dedupRecords (buildDataRecords rid now sfx parsedRows 0))
      (store.filter (fun r => r.round_id ≠ rid)) = true ∧
    handleImport (some rid) headers parsedRows sfx now deleteFails insertFails store
      = ⟨.success,
          store.filter (fun r => r.round_id ≠ rid)
            ++ (metadataRecord rid now headers
                :: dedupRecords (buildDataRecords rid now sfx parsedRows 0)),
          [.deleteRound rid,
            .insertRecords (metadataRecord rid now headers
              :: dedupRecords (buildDataRecords rid now sfx parsedRows 0))]⟩ := by
cases deleteFails with
| true => simp [handleImport] at h
| false =>
  cases insertFails with
  | true => simp [handleImport] at h
  | false =>
    by_cases hok : insertOk
        (metadataRecord rid now headers
          :: dedupRecords (buildDataRecords rid now sfx parsedRows 0))
        (store.filter (fun r => r.round_id ≠ rid)) = true
    · refine ⟨rfl, rfl, hok, ?_⟩
      simp only [ne_eq, decide_not] at hok
      simp [handleImport, hok]
    · exfalso
      simp only [Bool.not_eq_true] at hok
      simp only [ne_eq, decide_not] at hok
      simp [handleImport, hok] at h

theorem filter_ne_then_eq (store : List DBRecord) (rid rid2 : String) :
    (store.filter (fun r => decide (r.round_id ≠ rid))).filter
        (fun r => decide (r.round_id = rid2))
      = if rid2 = rid then [] else store.filter (fun r => decide (r.round_id = rid2)) := by
induction store with
| nil => simp
| cons r rest ih =>
  by_cases h1 : r.round_id = rid <;> by_cases h2 : r.round_id = rid2 <;>
    by_cases h3 : rid2 = rid <;>
    simp [List.filter_cons, h1, h2, h3, ih] <;> simp_all

theorem batch_filter_eq (batch : List DBRecord) (rid : String)
    (h : ∀ r ∈ batch, r.round_id = rid) :
    batch.filter (fun r => decide (r.round_id = rid)) = batch := by
apply List.filter_eq_self.mpr
intro r hr
simp [h r hr]

theorem distinctKeys_head (k : String × String) (ks : List (String × String))
    (h : distinctKeys (k :: ks) = true) : k ∉ ks := by
simp only [distinctKeys, Bool.and_eq_true] at h
simpa using h.1

theorem insertOk_meta_not_in_tail (b : DBRecord) (rest store : List DBRecord)
    (h : insertOk (b :: rest) store = true) :
    ∀ r ∈ rest, recordKey r ≠ recordKey b := by
simp only [insertOk, Bool.and_eq_true] at h
have hd := distinctKeys_head (recordKey b) (rest.map recordKey) (by simpa using h.1)
intro r hr he
exact hd (he ▸ List.mem_map_of_mem recordKey hr)

end Moza

/-!
### The duplicated import routine

`src/unnamed/part_002` carries a second copy of the bulk-import component
with its own `ESSENTIAL_MAP` and `handleImport` (lines 67-177).  The
definitions below transliterate that copy independently, so that the two
routines can be compared.
-/

namespace MozaVariant

open Moza (CellValue Row DBRecord Payload StoreOp ImportOutcome RunResult jsTrim jsToString
  jsNumber jsOrDefault Role)

/-- The synonym table of the duplicated component (`part_002`
lines 13-17). -/
def ESSENTIAL_MAP (s : String) : Option Role :=
if s = "排名" ∨ s = "Rank" ∨ s = "RANK" then some .rank
else if s = "车手" ∨ s = "车手姓名" ∨ s = "车手ID" ∨ s = "姓名" ∨ s = "Driver" ∨ s = "Name" then some .driverId
else if s = "积分" ∨ s = "Points" ∨ s = "POINTS" then some .points
else none

/-- The essential-field scan of the duplicated `handleImport`
(`part_002` lines 90-102). -/
def essentialsStep (e : Moza.Essentials) (kv : String × CellValue) : Moza.Essentials :=
match ESSENTIAL_MAP (jsTrim kv.1) with
| some .rank => { e with rank := jsOrDefault (jsNumber kv.2) 999 }
| some .driverId => { e with driver_id := jsToString kv.2 }
| some .points => { e with points := jsOrDefault (jsNumber kv.2) 0 }
| none => e

/-- `deriveEssentials` of the duplicated routine. -/
def deriveEssentials (row : Row) : Moza.Essentials :=
row.foldl essentialsStep ⟨999, "Unknown", 0⟩

/-- The metadata record of the duplicated `handleImport`
(`part_002` lines 76-87). -/
def metadataRecord (roundId now : String) (headers : List CellValue) : DBRecord :=
{ round_id := roundId
, driver_id := "__METADATA__"
, rank := 0
, points := 0
, tier := none
, safety_score := 0
, podiums := 0
, finished_races := 0
, total_races := 0
, display_races := .meta headers
, created_at := now }

/-- The data record built from one parsed row by the duplicated routine
(`part_002` lines 90-127). -/
def mkDataRecord (roundId now sfx : String) (row : Row) : DBRecord :=
let e := deriveEssentials row
let driver := if e.driver_id = "Unknown" then "Unknown_" ++ sfx else e.driver_id
{ round_id := roundId
, driver_id := driver
, rank := e.rank
, points := e.points
, tier := none
, safety_score := 0
, podiums := 0
, finished_races := 0
, total_races := 0
, display_races := .rowData row
, created_at := now }

/-- `parsedRows.map(...)` of the duplicated routine. -/
def buildDataRecords (roundId now : String) (sfx : Nat → String) : List Row → Nat → List DBRecord
| [], _ => []
| row :: rest, i => mkDataRecord roundId now (sfx i) row :: buildDataRecords roundId now sfx rest (i + 1)

/-- The rename candidate of the duplicated dedup loop
(`part_002` lines 149-154). -/
def freshName (base : String) (n : Nat) : String :=
base ++ "_" ++ toString n

/-- The `while (uniqueRecords.has(newId))` loop of the duplicated
routine. -/
def findFreshAux (keys : List String) (base : String) : Nat → Nat → Nat
| n, 0 => n
| n, fuel + 1 => if keys.contains (freshName base n) then findFreshAux keys base (n + 1) fuel else n

/-- One iteration of the duplicated dedup `forEach`
(`part_002` lines 143-158). -/
def dedupStep (acc : List (String × DBRecord)) (record : DBRecord) : List (String × DBRecord) :=
let keys := acc.map Prod.fst
if keys.contains record.driver_id then
  let counter := findFreshAux keys record.driver_id 1 (keys.length + 1)
  let newId := freshName record.driver_id counter
  acc ++ [(newId, { record with driver_id := newId })]
else
  acc ++ [(record.driver_id, record)]

/-- The deduplication pass of the duplicated routine
(`part_002` lines 141-160). -/
def dedupRecords (dataRecords : List DBRecord) : List DBRecord :=
(dataRecords.foldl dedupStep []).map Prod.snd

/-- `handleImport` of the duplicated component (`part_002` lines 67-177)
as a state transformer on the ranking store, in the same interface as
`Moza.handleImport`. -/
def handleImport (roundId : Option String) (headers : List CellValue) (parsedRows : List Row)
    (sfx : Nat → String) (now : String) (deleteFails insertFails : Bool)
    (store : List DBRecord) : RunResult :=
match roundId with
| none => ⟨.validationError, store, []⟩
| some rid =>
  let md := metadataRecord rid now headers
  let dataRecords := buildDataRecords rid now sfx parsedRows 0
  if deleteFails then ⟨.persistenceError, store, [.deleteRound rid]⟩
  else
    let store1 := store.filter (fun r => r.round_id ≠ rid)
    let finalDataRecords := dedupRecords dataRecords
    let allRecords := md :: finalDataRecords
    if insertFails || !Moza.insertOk allRecords store1 then
      ⟨.persistenceError, store1, [.deleteRound rid, .insertRecords allRecords]⟩
    else
      ⟨.success, store1 ++ allRecords, [.deleteRound rid, .insertRecords allRecords]⟩

end MozaVariant

namespace Moza

/-- Whether a cell value is a string. -/
def isStrCell : CellValue → Bool
| .str _ => true
| .num _ => false

/-- C3 (counterexample): the claim says the significant header list keeps
exactly the header cells that are non-empty after trimming; but the code
additionally drops JavaScript-falsy cells, so the numeric header cell `0`,
whose string form `"0"` is non-empty after trimming, is dropped. -/
theorem claim_C3_counterexample :
    cleanHeaders [CellValue.num 0] = []
    ∧ jsTrim (jsToString (CellValue.num 0)) ≠ ""
    ∧ [CellValue.num 0].filter (fun h => decide (jsTrim (jsToString h) ≠ ""))
        = [CellValue.num 0] := by
exact ⟨by decide, by decide, by decide⟩

/-- C3 (amended): for every header row all of whose cells are strings,
the derived significant header list consists of exactly those header
cells that are non-empty after trimming whitespace, in original order;
in particular the header row `["排名", "", "车手", "积分", "  "]` yields
exactly `["排名", "车手", "积分"]`.  (For non-string cells the code also
requires JavaScript truthiness, which is what the counterexample
exhibits.) -/
theorem claim_C3_header_significance (hs : List CellValue) (hstr : hs.all isStrCell = true) :
    cleanHeaders hs = hs.filter (fun h => decide (jsTrim (jsToString h) ≠ ""))
    ∧ cleanHeaders [.str "排名", .str "", .str "车手", .str "积分", .str "  "]
        = [.str "排名", .str "车手", .str "积分"] := by
refine ⟨?_, by decide⟩
apply List.filter_congr
intro h hmem
have hstrh : isStrCell h = true := by
  have := List.all_eq_true.1 hstr h hmem
  simpa using this
cases h with
| num n => simp [isStrCell] at hstrh
| str s =>
  by_cases hse : s = ""
  · subst hse
    decide
  · simp [truthy, jsToString, hse]

theorem claim_C3_header_significance_witness :
    cleanHeaders [CellValue.str "a", CellValue.str " "]
      = [CellValue.str "a", CellValue.str " "].filter
          (fun h => decide (jsTrim (jsToString h) ≠ "")) :=
(claim_C3_header_significance [CellValue.str "a", CellValue.str " "] (by decide)).1

/-- C4 (counterexample): the claim says the sentinel 999 is used for
`rank` if and only if the cell is missing or not parseable; but the code
computes `Number(cell) || 999`, so the parseable cell `"0"` (which
`Number` maps to `0`, a falsy value) also produces the sentinel. -/
theorem claim_C4_counterexample :
    (deriveEssentials [("Rank", CellValue.str "0")]).rank = 999
    ∧ jsNumber (CellValue.str "0") = some 0 := by
exact ⟨by decide, by decide⟩

/-- C4 (amended): each essential role is supplied by the last header of
the row whose trimmed spelling matches that role in `ESSENTIAL_MAP`;
`rank` is the parsed number of the matched cell with sentinel 999 used
when the cell is missing, not parseable, or parses to zero (JavaScript
falsy), and `points` defaults to 0 the same way; the example row maps to
`rank=3, driverIdentity="Alice", points=40`; and a row supplying no
driver-identity role resolves to the identity `"Unknown_" ++ suffix`. -/
theorem claim_C4_essential_mapping :
    (∀ row : Row,
      deriveEssentials row
        = { rank := match lastRole .rank row with
              | some v => jsOrDefault (jsNumber v) 999
              | none => 999
          , driver_id := match lastRole .driverId row with
              | some v => jsToString v
              | none => "Unknown"
          , points := match lastRole .points row with
              | some v => jsOrDefault (jsNumber v) 0
              | none => 0 })
    ∧ deriveEssentials [("Rank", .str "3"), ("Name", .str "Alice"), ("Points", .str "40")]
        = ⟨3, "Alice", 40⟩
    ∧ (∀ (rid now s : String) (row : Row), lastRole .driverId row = none →
        (mkDataRecord rid now s row).driver_id = "Unknown_" ++ s) := by
refine ⟨deriveEssentials_char, by decide, ?_⟩
intro rid now s row hnone
have hid : (deriveEssentials row).driver_id = "Unknown" := by
  rw [deriveEssentials_char, hnone]
simp [mkDataRecord, hid]

theorem claim_C4_essential_mapping_witness :
    (mkDataRecord "R" "t" "abc" [("Foo", CellValue.str "bar")]).driver_id = "Unknown_" ++ "abc" :=
claim_C4_essential_mapping.2.2 "R" "t" "abc" [("Foo", CellValue.str "bar")] (by decide)

/-- C2: deduplication walks records in order; the first occurrence of an
identity not yet a key is stored as-is, a colliding record is renamed to
`<identity>_<n>` for the smallest positive `n` whose renamed identity is
not yet a key; every row survives and the final identities are pairwise
distinct; three rows resolving to `"Bob"` are stored as
`"Bob"`, `"Bob_1"`, `"Bob_2"` in encounter order. -/
theorem claim_C2_dedup_determinism :
    (∀ l : List DBRecord, (dedupRecords l).length = l.length)
    ∧ (∀ l : List DBRecord, ((dedupRecords l).map (fun r => r.driver_id)).Nodup)
    ∧ (∀ (acc : List (String × DBRecord)) (r : DBRecord), r.driver_id ∉ acc.map Prod.fst →
        dedupStep acc r = acc ++ [(r.driver_id, r)])
    ∧ (∀ (acc : List (String × DBRecord)) (r : DBRecord), r.driver_id ∈ acc.map Prod.fst →
        ∃ n, 0 < n ∧ freshName r.driver_id n ∉ acc.map Prod.fst ∧
          (∀ k, 0 < k → k < n → freshName r.driver_id k ∈ acc.map Prod.fst) ∧
          dedupStep acc r
            = acc ++ [(freshName r.driver_id n, { r with driver_id := freshName r.driver_id n })])
    ∧ (dedupRecords [mkDataRecord "R" "t" "s1" [("Name", CellValue.str "Bob")],
          mkDataRecord "R" "t" "s2" [("Name", CellValue.str "Bob")],
          mkDataRecord "R" "t" "s3" [("Name", CellValue.str "Bob")]]).map (fun r => r.driver_id)
        = ["Bob", "Bob_1", "Bob_2"] :=
⟨dedupRecords_length, dedupRecords_ids_nodup, dedupStep_first, dedupStep_collision, by decide⟩

theorem claim_C2_dedup_determinism_witness :
    dedupStep [] (mkDataRecord "R" "t" "s1" [("Name", CellValue.str "Bob")])
      = [] ++ [((mkDataRecord "R" "t" "s1" [("Name", CellValue.str "Bob")]).driver_id,
          mkDataRecord "R" "t" "s1" [("Name", CellValue.str "Bob")])]
    ∧ dedupStep [("Bob", mkDataRecord "R" "t" "s1" [("Name", CellValue.str "Bob")])]
        (mkDataRecord "R" "t" "s2" [("Name", CellValue.str "Bob")])
      = [("Bob", mkDataRecord "R" "t" "s1" [("Name", CellValue.str "Bob")])]
        ++ [(freshName (mkDataRecord "R" "t" "s2" [("Name", CellValue.str "Bob")]).driver_id 1,
            { mkDataRecord "R" "t" "s2" [("Name", CellValue.str "Bob")] with
              driver_id :=
                freshName (mkDataRecord "R" "t" "s2" [("Name", CellValue.str "Bob")]).driver_id 1 })] := by
constructor
· exact claim_C2_dedup_determinism.2.2.1 [] (mkDataRecord "R" "t" "s1" [("Name", CellValue.str "Bob")])
    (by decide)
· obtain ⟨n, hn0, hfresh, hmin, heq⟩ := claim_C2_dedup_determinism.2.2.2.1
    [("Bob", mkDataRecord "R" "t" "s1" [("Name", CellValue.str "Bob")])]
    (mkDataRecord "R" "t" "s2" [("Name", CellValue.str "Bob")]) (by decide)
  have hn1 : n = 1 := by
    by_contra hne
    have hm := hmin 1 (by omega) (by omega)
    exact absurd hm (by decide)
  rw [hn1] at heq
  exact heq

/-- C5: the stored `display_races` of each produced record is the
serialized full original row, positionally (deduplication preserves the
payload list); renaming during deduplication changes only `driver_id`;
and reading any column of a record through the renderer gives the value
under that header in the original row. -/
theorem claim_C5_raw_payload_round_trip :
    (∀ (rid now : String) (sfx : Nat → String) (rows : List Row),
      (dedupRecords (buildDataRecords rid now sfx rows 0)).map (fun r => r.display_races)
        = rows.map Payload.rowData)
    ∧ (∀ l : List DBRecord, (dedupRecords l).map stripId = l.map stripId)
    ∧ (∀ (col : String) (r : DBRecord) (row : Row), r.display_races = .rowData row →
        renderCell col r = lookupRow col row) := by
refine ⟨?_, dedupRecords_strip, ?_⟩
· intro rid now sfx rows
  rw [dedupRecords_display, buildDataRecords_display]
· intro col r row h
  rw [renderCell, h]
  rfl

theorem claim_C5_raw_payload_round_trip_witness :
    renderCell "B" (mkDataRecord "R" "t" "s" [("A", CellValue.str "x"), ("B", CellValue.num 7)])
      = lookupRow "B" [("A", CellValue.str "x"), ("B", CellValue.num 7)]
    ∧ lookupRow "B" [("A", CellValue.str "x"), ("B", CellValue.num 7)] = some (CellValue.num 7) :=
⟨claim_C5_raw_payload_round_trip.2.2 "B"
    (mkDataRecord "R" "t" "s" [("A", CellValue.str "x"), ("B", CellValue.num 7)])
    [("A", CellValue.str "x"), ("B", CellValue.num 7)] rfl,
  by decide⟩

/-- C8: an import with no round identifier fails with the validation
error and issues no storage operation; a workbook with zero rows fails
with the empty-file error, and one with a header row but zero data rows
with the no-data-rows error, in both cases issuing no storage operation
and leaving the store unchanged. -/
theorem claim_C8_input_validation :
    (∀ (headers : List CellValue) (parsedRows : List Row) (sfx : Nat → String) (now : String)
        (df fi : Bool) (store : List DBRecord),
      handleImport none headers parsedRows sfx now df fi store
        = ⟨.validationError, store, []⟩)
    ∧ (∀ (roundId : Option String) (rows : List Row) (sfx : Nat → String) (now : String)
        (df fi : Bool) (store : List DBRecord),
      fullImport roundId [] rows sfx now df fi store = ⟨.emptyFile, store, []⟩)
    ∧ (∀ (roundId : Option String) (fileHeaders : List CellValue)
        (restRows : List (List CellValue)) (sfx : Nat → String) (now : String)
        (df fi : Bool) (store : List DBRecord),
      fullImport roundId (fileHeaders :: restRows) [] sfx now df fi store
        = ⟨.noDataRows, store, []⟩) :=
⟨fun _ _ _ _ _ _ _ => rfl, fun _ _ _ _ _ _ _ => rfl, fun _ _ _ _ _ _ _ _ => rfl⟩

/-- Every record of the insert batch carries the target round
identifier. -/
theorem batch_round_id (rid now : String) (headers : List CellValue) (sfx : Nat → String)
    (parsedRows : List Row) :
    ∀ r ∈ metadataRecord rid now headers
        :: dedupRecords (buildDataRecords rid now sfx parsedRows 0), r.round_id = rid := by
intro r hr
rcases List.mem_cons.1 hr with hr | hr
· rw [hr]
  rfl
· exact dedupRecords_round_id rid _
    (fun s hs => buildDataRecords_round_id rid now sfx parsedRows 0 s hs) r hr

/-- When the unique-key constraint accepted the batch, the metadata
record is the only record of the batch with the reserved identity. -/
theorem batch_meta_filter (rid now : String) (headers : List CellValue) (sfx : Nat → String)
    (parsedRows : List Row) (store1 : List DBRecord)
    (hok : insertOk
      (metadataRecord rid now headers :: dedupRecords (buildDataRecords rid now sfx parsedRows 0))
      store1 = true) :
    (metadataRecord rid now headers
        :: dedupRecords (buildDataRecords rid now sfx parsedRows 0)).filter
        (fun r => decide (r.driver_id = "__METADATA__"))
      = [metadataRecord rid now headers] := by
have hne := insertOk_meta_not_in_tail _ _ _ hok
rw [List.filter_cons]
rw [if_pos (by simp [metadataRecord])]
have hnil : (dedupRecords (buildDataRecords rid now sfx parsedRows 0)).filter
    (fun r => decide (r.driver_id = "__METADATA__")) = [] := by
  apply List.filter_eq_nil_iff.mpr
  intro r hr
  simp only [decide_eq_true_eq]
  intro hmeta
  apply hne r hr
  have hrid : r.round_id = rid :=
    batch_round_id rid now headers sfx parsedRows r (List.mem_cons_of_mem _ hr)
  simp [recordKey, metadataRecord, hrid, hmeta]
rw [hnil]

/-- The round slice of the store after a successful import is exactly the
inserted batch. -/
theorem success_slice (rid : String) (headers : List CellValue) (parsedRows : List Row)
    (sfx : Nat → String) (now : String) (df fi : Bool) (store : List DBRecord)
    (h : (handleImport (some rid) headers parsedRows sfx now df fi store).outcome = .success) :
    (handleImport (some rid) headers parsedRows sfx now df fi store).store.filter
        (fun r => decide (r.round_id = rid))
      = metadataRecord rid now headers
        :: dedupRecords (buildDataRecords rid now sfx parsedRows 0) := by
obtain ⟨-, -, hok, heq⟩ := handleImport_success_inv rid headers parsedRows sfx now df fi store h
rw [heq]
show (store.filter (fun r => decide (r.round_id ≠ rid))
    ++ (metadataRecord rid now headers
        :: dedupRecords (buildDataRecords rid now sfx parsedRows 0))).filter
    (fun r => decide (r.round_id = rid)) = _
rw [List.filter_append]
have h1 := filter_ne_then_eq store rid rid
rw [if_pos rfl] at h1
rw [h1, batch_filter_eq _ rid (batch_round_id rid now headers sfx parsedRows), List.nil_append]

theorem variant_freshName_eq : MozaVariant.freshName = freshName := rfl

theorem variant_findFreshAux_eq (keys : List String) (base : String) :
    ∀ (fuel n : Nat), MozaVariant.findFreshAux keys base n fuel = findFreshAux keys base n fuel := by
intro fuel
induction fuel with
| zero => intro n; rfl
| succ fuel ih =>
  intro n
  simp only [MozaVariant.findFreshAux, findFreshAux, variant_freshName_eq, ih]

theorem variant_dedupStep_eq : MozaVariant.dedupStep = dedupStep := by
funext acc r
simp only [MozaVariant.dedupStep, dedupStep, variant_freshName_eq, variant_findFreshAux_eq]

theorem variant_dedupRecords_eq (l : List DBRecord) :
    MozaVariant.dedupRecords l = dedupRecords l := by
simp only [MozaVariant.dedupRecords, dedupRecords, variant_dedupStep_eq]

theorem variant_buildDataRecords_eq (rid now : String) (sfx : Nat → String) :
    ∀ (rows : List Row) (i : Nat),
      MozaVariant.buildDataRecords rid now sfx rows i = buildDataRecords rid now sfx rows i := by
intro rows
induction rows with
| nil => intro i; rfl
| cons row rest ih =>
  intro i
  simp only [MozaVariant.buildDataRecords, buildDataRecords, ih,
    show MozaVariant.mkDataRecord = mkDataRecord from rfl]

/-- C10: the duplicated import routine of `src/unnamed/part_002` computes
the same metadata record, the same per-row essential fields, the same
deduplication, and the same delete-then-insert run as the routine of
`BulkImportModal.tsx`, on every input. -/
theorem claim_C10_variant_equivalence :
    (∀ (rid now : String) (headers : List CellValue),
      MozaVariant.metadataRecord rid now headers = metadataRecord rid now headers)
    ∧ (∀ row : Row, MozaVariant.deriveEssentials row = deriveEssentials row)
    ∧ (∀ l : List DBRecord, MozaVariant.dedupRecords l = dedupRecords l)
    ∧ (∀ (roundId : Option String) (headers : List CellValue) (parsedRows : List Row)
        (sfx : Nat → String) (now : String) (df fi : Bool) (store : List DBRecord),
      MozaVariant.handleImport roundId headers parsedRows sfx now df fi store
        = handleImport roundId headers parsedRows sfx now df fi store) := by
refine ⟨fun _ _ _ => rfl, fun _ => rfl, variant_dedupRecords_eq, ?_⟩
intro roundId headers parsedRows sfx now df fi store
cases roundId with
| none => rfl
| some rid =>
  simp only [MozaVariant.handleImport, handleImport, variant_dedupRecords_eq,
    variant_buildDataRecords_eq,
    show MozaVariant.metadataRecord = metadataRecord from rfl]

/-- C1: after a successful import into round `rid`, the records stored
for `rid` are exactly the inserted batch — one metadata record followed
by the deduplicated data records, one per data row — and in particular no
record for `rid` stored before the import survives, and exactly one
record carries the reserved metadata identity. -/
theorem claim_C1_replace_semantics (rid : String) (headers : List CellValue)
    (parsedRows : List Row) (sfx : Nat → String) (now : String) (df fi : Bool)
    (store : List DBRecord)
    (hsucc : (handleImport (some rid) headers parsedRows sfx now df fi store).outcome
      = .success) :
    (handleImport (some rid) headers parsedRows sfx now df fi store).store.filter
        (fun r => decide (r.round_id = rid))
      = metadataRecord rid now headers
        :: dedupRecords (buildDataRecords rid now sfx parsedRows 0)
    ∧ (dedupRecords (buildDataRecords rid now sfx parsedRows 0)).length = parsedRows.length
    ∧ (metadataRecord rid now headers
        :: dedupRecords (buildDataRecords rid now sfx parsedRows 0)).filter
        (fun r => decide (r.driver_id = "__METADATA__"))
      = [metadataRecord rid now headers] := by
obtain ⟨-, -, hok, -⟩ := handleImport_success_inv rid headers parsedRows sfx now df fi store hsucc
refine ⟨success_slice rid headers parsedRows sfx now df fi store hsucc, ?_, ?_⟩
· rw [dedupRecords_length, buildDataRecords_length]
· exact batch_meta_filter rid now headers sfx parsedRows _ hok

theorem claim_C1_replace_semantics_witness :
    (handleImport (some "R") [CellValue.str "Name"] [[("Name", CellValue.str "Bob")]]
        (fun _ => "s") "t" false false
        [metadataRecord "R" "old" [CellValue.str "Old"],
          mkDataRecord "R" "old" "x" [("Name", CellValue.str "Carl")]]).store.filter
        (fun r => decide (r.round_id = "R"))
      = metadataRecord "R" "t" [CellValue.str "Name"]
        :: dedupRecords (buildDataRecords "R" "t" (fun _ => "s")
            [[("Name", CellValue.str "Bob")]] 0)
    ∧ (dedupRecords (buildDataRecords "R" "t" (fun _ => "s")
        [[("Name", CellValue.str "Bob")]] 0)).length
      = [[("Name", CellValue.str "Bob")]].length
    ∧ (metadataRecord "R" "t" [CellValue.str "Name"]
        :: dedupRecords (buildDataRecords "R" "t" (fun _ => "s")
            [[("Name", CellValue.str "Bob")]] 0)).filter
        (fun r => decide (r.driver_id = "__METADATA__"))
      = [metadataRecord "R" "t" [CellValue.str "Name"]] :=
claim_C1_replace_semantics "R" [CellValue.str "Name"] [[("Name", CellValue.str "Bob")]]
  (fun _ => "s") "t" false false
  [metadataRecord "R" "old" [CellValue.str "Old"],
    mkDataRecord "R" "old" "x" [("Name", CellValue.str "Carl")]] (by decide)

/-- C6: a successful import issues exactly one delete of the round and
one bulk insert whose batch holds exactly one metadata record, whose
`columns` document is the significant header list in original order;
reading the metadata back from the stored round slice yields that same
header list, and rendering any column of any produced data record yields
the value under that header in the corresponding original row. -/
theorem claim_C6_schema_round_trip (rid : String) (headers : List CellValue)
    (parsedRows : List Row) (sfx : Nat → String) (now : String) (df fi : Bool)
    (store : List DBRecord)
    (hsucc : (handleImport (some rid) headers parsedRows sfx now df fi store).outcome
      = .success) :
    (handleImport (some rid) headers parsedRows sfx now df fi store).ops
      = [.deleteRound rid,
          .insertRecords (metadataRecord rid now headers
            :: dedupRecords (buildDataRecords rid now sfx parsedRows 0))]
    ∧ (metadataRecord rid now headers).display_races = Payload.meta headers
    ∧ metadataColumns
        ((handleImport (some rid) headers parsedRows sfx now df fi store).store.filter
          (fun r => decide (r.round_id = rid)))
      = some headers
    ∧ (∀ col : String,
        (dedupRecords (buildDataRecords rid now sfx parsedRows 0)).map (renderCell col)
          = parsedRows.map (fun row => lookupRow col row)) := by
obtain ⟨-, -, -, heq⟩ := handleImport_success_inv rid headers parsedRows sfx now df fi store hsucc
refine ⟨by rw [heq], rfl, ?_, ?_⟩
· rw [success_slice rid headers parsedRows sfx now df fi store hsucc]
  simp [metadataColumns, metadataRecord]
· intro col
  have h1 : (dedupRecords (buildDataRecords rid now sfx parsedRows 0)).map (renderCell col)
      = ((dedupRecords (buildDataRecords rid now sfx parsedRows 0)).map
          (fun r => r.display_races)).map (renderPayload col) := by
    rw [List.map_map]
    rfl
  rw [h1, dedupRecords_display, buildDataRecords_display, List.map_map]
  apply List.map_congr_left
  intro row _
  rfl

theorem claim_C6_schema_round_trip_witness :
    metadataColumns
        ((handleImport (some "R") [CellValue.str "A", CellValue.str "B", CellValue.str "C"]
            [[("A", CellValue.str "1"), ("B", CellValue.str "x"), ("C", CellValue.str "y")]]
            (fun _ => "s") "t" false false []).store.filter
          (fun r => decide (r.round_id = "R")))
      = some [CellValue.str "A", CellValue.str "B", CellValue.str "C"]
    ∧ (dedupRecords (buildDataRecords "R" "t" (fun _ => "s")
        [[("A", CellValue.str "1"), ("B", CellValue.str "x"), ("C", CellValue.str "y")]] 0)).map
        (renderCell "B")
      = [[("A", CellValue.str "1"), ("B", CellValue.str "x"), ("C", CellValue.str "y")]].map
          (fun row => lookupRow "B" row) := by
have h := claim_C6_schema_round_trip "R" [CellValue.str "A", CellValue.str "B", CellValue.str "C"]
  [[("A", CellValue.str "1"), ("B", CellValue.str "x"), ("C", CellValue.str "y")]]
  (fun _ => "s") "t" false false [] (by decide)
exact ⟨h.2.2.1, h.2.2.2 "B"⟩

/-- C7: when the delete of the round's records fails, the import issues
no insert, reports a persistence failure, and leaves the store untouched;
when the delete succeeds and the bulk insert fails, the import reports a
persistence failure, the round is left with no records at all, and the
operation trace is the single delete followed by the single rejected
insert — no recovery or retry. -/
theorem claim_C7_atomicity (rid : String) (headers : List CellValue) (parsedRows : List Row)
    (sfx : Nat → String) (now : String) (fi : Bool) (store : List DBRecord) :
    handleImport (some rid) headers parsedRows sfx now true fi store
      = ⟨.persistenceError, store, [.deleteRound rid]⟩
    ∧ ((handleImport (some rid) headers parsedRows sfx now false fi store).outcome
        = .persistenceError →
      handleImport (some rid) headers parsedRows sfx now false fi store
        = ⟨.persistenceError, store.filter (fun r => r.round_id ≠ rid),
            [.deleteRound rid,
              .insertRecords (metadataRecord rid now headers
                :: dedupRecords (buildDataRecords rid now sfx parsedRows 0))]⟩
      ∧ (handleImport (some rid) headers parsedRows sfx now false fi store).store.filter
          (fun r => decide (r.round_id = rid)) = []) := by
constructor
· rfl
· intro hfail
  have hcond : (fi || !insertOk
      (metadataRecord rid now headers :: dedupRecords (buildDataRecords rid now sfx parsedRows 0))
      (store.filter (fun r => r.round_id ≠ rid))) = true := by
    by_contra hc
    simp only [Bool.not_eq_true] at hc
    have : (handleImport (some rid) headers parsedRows sfx now false fi store).outcome
        = .success := by
      simp only [ne_eq, decide_not] at hc
      simp [handleImport, hc]
    rw [this] at hfail
    cases hfail
  have heq : handleImport (some rid) headers parsedRows sfx now false fi store
      = ⟨.persistenceError, store.filter (fun r => r.round_id ≠ rid),
          [.deleteRound rid,
            .insertRecords (metadataRecord rid now headers
              :: dedupRecords (buildDataRecords rid now sfx parsedRows 0))]⟩ := by
    simp only [ne_eq, decide_not] at hcond
    simp [handleImport, hcond]
  refine ⟨heq, ?_⟩
  rw [heq]
  show (store.filter (fun r => decide (r.round_id ≠ rid))).filter
      (fun r => decide (r.round_id = rid)) = []
  have h1 := filter_ne_then_eq store rid rid
  rw [if_pos rfl] at h1
  exact h1

theorem claim_C7_atomicity_witness :
    handleImport (some "R") [CellValue.str "Name"] [[("Name", CellValue.str "Bob")]]
        (fun _ => "s") "t" true false
        [mkDataRecord "R" "old" "x" [("Name", CellValue.str "Carl")]]
      = ⟨.persistenceError,
          [mkDataRecord "R" "old" "x" [("Name", CellValue.str "Carl")]],
          [.deleteRound "R"]⟩
    ∧ (handleImport (some "R") [CellValue.str "Name"] [[("Name", CellValue.str "Bob")]]
        (fun _ => "s") "t" false true
        [mkDataRecord "R" "old" "x" [("Name", CellValue.str "Carl")]]).store.filter
        (fun r => decide (r.round_id = "R")) = [] := by
constructor
· exact (claim_C7_atomicity "R" [CellValue.str "Name"] [[("Name", CellValue.str "Bob")]]
    (fun _ => "s") "t" false
    [mkDataRecord "R" "old" "x" [("Name", CellValue.str "Carl")]]).1
· exact ((claim_C7_atomicity "R" [CellValue.str "Name"] [[("Name", CellValue.str "Bob")]]
    (fun _ => "s") "t" true
    [mkDataRecord "R" "old" "x" [("Name", CellValue.str "Carl")]]).2 (by decide)).2

/-- C9 (frame property): an import targeting round `rid` never changes
the records of any other round — under every outcome the slice of the
store belonging to a different round is unchanged, every issued operation
is either the delete filtered to `rid` or the insert of the batch, and
every record of that batch carries `round_id = rid`. -/
theorem claim_C9_frame (rid : String) (headers : List CellValue) (parsedRows : List Row)
    (sfx : Nat → String) (now : String) (df fi : Bool) (store : List DBRecord)
    (rid2 : String) (hne : rid2 ≠ rid) :
    (handleImport (some rid) headers parsedRows sfx now df fi store).store.filter
        (fun r => decide (r.round_id = rid2))
      = store.filter (fun r => decide (r.round_id = rid2))
    ∧ (∀ op ∈ (handleImport (some rid) headers parsedRows sfx now df fi store).ops,
        op = .deleteRound rid
        ∨ op = .insertRecords (metadataRecord rid now headers
            :: dedupRecords (buildDataRecords rid now sfx parsedRows 0)))
    ∧ (∀ r ∈ metadataRecord rid now headers
          :: dedupRecords (buildDataRecords rid now sfx parsedRows 0), r.round_id = rid) := by
have hslice : (store.filter (fun r => decide (r.round_id ≠ rid))).filter
    (fun r => decide (r.round_id = rid2)) = store.filter (fun r => decide (r.round_id = rid2)) := by
  have h1 := filter_ne_then_eq store rid rid2
  rw [if_neg hne] at h1
  exact h1
have hbatchnil : (metadataRecord rid now headers
    :: dedupRecords (buildDataRecords rid now sfx parsedRows 0)).filter
    (fun r => decide (r.round_id = rid2)) = [] := by
  apply List.filter_eq_nil_iff.mpr
  intro r hr
  simp only [decide_eq_true_eq]
  rw [batch_round_id rid now headers sfx parsedRows r hr]
  exact fun he => hne he.symm
refine ⟨?_, ?_, batch_round_id rid now headers sfx parsedRows⟩
· cases df with
  | true => rfl
  | false =>
    cases hcond : (fi || !insertOk
        (metadataRecord rid now headers
          :: dedupRecords (buildDataRecords rid now sfx parsedRows 0))
        (store.filter (fun r => r.round_id ≠ rid))) with
    | true =>
      have heq : (handleImport (some rid) headers parsedRows sfx now false fi store).store
          = store.filter (fun r => decide (r.round_id ≠ rid)) := by
        simp only [ne_eq, decide_not] at hcond
        simp [handleImport, hcond]
      rw [heq, hslice]
    | false =>
      have heq : (handleImport (some rid) headers parsedRows sfx now false fi store).store
          = store.filter (fun r => decide (r.round_id ≠ rid))
            ++ (metadataRecord rid now headers
                :: dedupRecords (buildDataRecords rid now sfx parsedRows 0)) := by
        simp only [ne_eq, decide_not] at hcond
        simp [handleImport, hcond]
      rw [heq, List.filter_append, hslice, hbatchnil, List.append_nil]
· cases df with
  | true =>
    intro op hop
    rcases List.mem_cons.1 hop with hop | hop
    · exact Or.inl hop
    · cases hop
  | false =>
    have hops : (handleImport (some rid) headers parsedRows sfx now false fi store).ops
        = [.deleteRound rid,
            .insertRecords (metadataRecord rid now headers
              :: dedupRecords (buildDataRecords rid now sfx parsedRows 0))] := by
      cases hcond : (fi || !insertOk
          (metadataRecord rid now headers
            :: dedupRecords (buildDataRecords rid now sfx parsedRows 0))
          (store.filter (fun r => r.round_id ≠ rid))) with
      | true =>
        simp only [ne_eq, decide_not] at hcond
        simp [handleImport, hcond]
      | false =>
        simp only [ne_eq, decide_not] at hcond
        simp [handleImport, hcond]
    rw [hops]
    intro op hop
    rcases List.mem_cons.1 hop with hop | hop
    · exact Or.inl hop
    · rcases List.mem_cons.1 hop with hop | hop
      · exact Or.inr hop
      · cases hop

theorem claim_C9_frame_witness :
    (handleImport (some "R") [CellValue.str "Name"] [[("Name", CellValue.str "Bob")]]
        (fun _ => "s") "t" false false
        [mkDataRecord "Q" "old" "x" [("Name", CellValue.str "Carl")]]).store.filter
        (fun r => decide (r.round_id = "Q"))
      = [mkDataRecord "Q" "old" "x" [("Name", CellValue.str "Carl")]].filter
          (fun r => decide (r.round_id = "Q")) :=
(claim_C9_frame "R" [CellValue.str "Name"] [[("Name", CellValue.str "Bob")]]
  (fun _ => "s") "t" false false
  [mkDataRecord "Q" "old" "x" [("Name", CellValue.str "Carl")]] "Q" (by decide)).1

end Moza
